import Mathlib

/-!
A shallow embedding of the `@polkadot/ui-keyring` keyring state manager
(`packages/ui-keyring/src/index.ts`) together with proofs about its
operations: the singleton constructor, `loadAll` legacy-key migration,
`saveRecent`, `saveAddressMeta`, `saveAccount`, `backupAccount`,
`isAvailable`, `getAddress`/`getAccounts`/`getPairs` filtering and the
options aggregation (`initOptions`).

Free-form JavaScript objects (the `meta` maps, the observable-store
subjects and the persistent store) are modelled as insertion-ordered
association lists, matching JavaScript's string-keyed property order.
External collaborators that are not part of the repository (the pair
capability of `@polkadot/keyring`, the observable stores' option
derivation and the `defaults` key helpers) are modelled from the
specification's contracts and say so in their doc comments.
-/

namespace UIKeyring

/-- A JavaScript metadata value as held in the free-form `meta` maps of the
source: booleans, numbers (timestamps) and strings. -/
inductive MetaVal where
  | b (v : Bool)
  | n (v : Nat)
  | s (v : String)
  deriving DecidableEq, Repr

/-- JavaScript truthiness of an optional property value: `undefined`,
`false`, `0` and the empty string are falsy, everything else is truthy. -/
def truthy : Option MetaVal → Bool
  | none => false
  | some (.b v) => v
  | some (.n v) => v != 0
  | some (.s v) => v != ""

section Assoc

variable {α β : Type} [DecidableEq α]

/-- Property read `o[key]` on a JavaScript object modelled as an
insertion-ordered association list (first binding wins; objects built by
`aset` never carry a duplicate key). -/
def alookup : List (α × β) → α → Option β
  | [], _ => none
  | (k, v) :: rest, key => if k = key then some v else alookup rest key

/-- Property write `o[key] = v`: replaces an existing binding in place,
appends a new binding at the end (JavaScript objects keep insertion
order for string keys). -/
def aset : List (α × β) → α → β → List (α × β)
  | [], key, v => [(key, v)]
  | (k, w) :: rest, key, v =>
      if k = key then (k, v) :: rest else (k, w) :: aset rest key v

/-- Property deletion `delete o[key]`. -/
def adel : List (α × β) → α → List (α × β)
  | [], _ => []
  | (k, v) :: rest, key =>
      if k = key then adel rest key else (k, v) :: adel rest key

end Assoc


/-- The free-form `meta` mapping of a stored record. -/
abbrev Meta := List (String × MetaVal)

/-- A serialized stored record (`KeyringJson` / `KeyringPair$Json` of the
source): address, optional encrypted key material, free-form metadata. -/
structure KeyringJson where
  address : String
  encoded : Option String := none
  meta : Meta
  deriving DecidableEq, Repr

/-- A selection option (`KeyringSectionOption`): both the per-entry options
derived by the observable stores and the section headers built by
`createOptionHeader` have this shape. -/
structure KeyringSectionOption where
  className : String
  name : String
  key : String
  text : String
  value : Option String
  deriving DecidableEq, Repr

/-- `name.toLowerCase()` (character-wise, which agrees with JavaScript on
the ASCII section names used here). -/
def jsToLower (s : String) : String :=
  ⟨s.data.map Char.toLower⟩

/-- `createOptionHeader(name)` of `index.ts`: a disabled section-header
option. -/
def createOptionHeader (name : String) : KeyringSectionOption :=
  { className := "header disabled"
    name := name
    key := "header-" ++ jsToLower name
    text := name
    value := none }

/-- Modelled from the spec: the observable stores (files
`observable/accounts` and `observable/addresses`, not under `src/`) derive
a lightweight selectable option record for every stored entry — id/key,
display text, enabled state (spec section 3, OptionsSnapshot; sections
4.3/4.4). -/
def createOptionItem (address : String) (json : KeyringJson) : KeyringSectionOption :=
  { className := ""
    name := address
    key := address
    text := match alookup json.meta "name" with
      | some (.s n) => n
      | _ => address
    value := some address }

/-- An entry of an observable store (`SingleAddress`): the stored json plus
its derived option. -/
structure SingleAddress where
  json : KeyringJson
  option : KeyringSectionOption
  deriving DecidableEq, Repr

/-- Contents of an observable store subject: insertion-ordered mapping
address → entry, the value produced by `subject.getValue()`. -/
abbrev ObsStore := List (String × SingleAddress)

/-- Modelled from the spec: the observable store's `add(address, json)`
upsert — stores the json under the address together with its derived
option and synchronously re-emits (spec sections 4.3/4.4). -/
def ObsStore.add (st : ObsStore) (address : String) (json : KeyringJson) : ObsStore :=
  aset st address { json := json, option := createOptionItem address json }

/-- The meta mapping stored for `address`, when an entry exists. -/
def storedMeta (st : ObsStore) (address : String) : Option Meta :=
  (alookup st address).map (fun sa => sa.json.meta)

/-- The five sequences of the options snapshot (`KeyringOptions`). -/
structure KeyringOptions where
  account : List KeyringSectionOption
  address : List KeyringSectionOption
  all : List KeyringSectionOption
  recent : List KeyringSectionOption
  testing : List KeyringSectionOption
  deriving DecidableEq, Repr

/-- `emptyOptions()` of `index.ts`. -/
def emptyOptions : KeyringOptions :=
  { account := [], address := [], all := [], recent := [], testing := [] }

/-- `addAccounts(options)`: walk the account store's current value in
iteration order, pushing each entry's option onto `testing` when
`meta.isTesting` is truthy (destructuring default `false`), else onto
`account`. -/
def addAccounts (accounts : ObsStore) (options : KeyringOptions) : KeyringOptions :=
  accounts.foldl
    (fun opts e =>
      if truthy (alookup e.2.json.meta "isTesting") then
        { opts with testing := opts.testing ++ [e.2.option] }
      else
        { opts with account := opts.account ++ [e.2.option] })
    options

/-- `addAddresses(options)`: walk the address store's current value,
pushing onto `recent` when `meta.isRecent` is truthy, else onto
`address`. -/
def addAddresses (addresses : ObsStore) (options : KeyringOptions) : KeyringOptions :=
  addresses.foldl
    (fun opts e =>
      if truthy (alookup e.2.json.meta "isRecent") then
        { opts with recent := opts.recent ++ [e.2.option] }
      else
        { opts with address := opts.address ++ [e.2.option] })
    options

/-- One recomputation of the options snapshot, as performed inside the
`initOptions()` subscription of `index.ts` on every store emission:
partition, then prepend/insert section headers guarded by array-length
truthiness, then concatenate `all`. -/
def computeOptions (accounts addresses : ObsStore) : KeyringOptions :=
  let o1 := addAccounts accounts emptyOptions
  let o2 := addAddresses addresses o1
  let addrSeq :=
    (if o2.address.length != 0 then [createOptionHeader "Addresses"] else []) ++
      o2.address ++
      (if o2.recent.length != 0 then [createOptionHeader "Recent"] else []) ++
      o2.recent
  let accSeq :=
    (if o2.account.length != 0 then [createOptionHeader "Accounts"] else []) ++
      o2.account ++
      (if o2.testing.length != 0 then [createOptionHeader "Development"] else []) ++
      o2.testing
  { account := accSeq
    address := addrSeq
    all := accSeq ++ addrSeq
    recent := o2.recent
    testing := o2.testing }

/-- An address argument accepted either as a display string or as raw
public-key bytes (`string | Uint8Array`). -/
inductive AddrInput where
  | str (s : String)
  | bytes (pk : Nat)
  deriving DecidableEq, Repr

/-- Modelled from the spec: the external keyring library's deterministic,
injective public-key → display-address encoding (spec section 3,
Address). -/
def encodeAddress (pk : Nat) : String := "addr:" ++ toString pk

/-- Modelled from the spec: inverse decoding; fails (`none`) on a string
that is not a valid encoding. -/
def decodeAddress (s : String) : Option Nat :=
  if s.startsWith "addr:" then (s.drop 5).toNat? else none

/-- The address string an operation works with: `isString(_address) ?
_address : encodeAddress(_address)`. -/
def resolveAddr : AddrInput → String
  | .str s => s
  | .bytes pk => encodeAddress pk

/-- `isAvailable(_address)` of `index.ts`: in neither the account store nor
the address store. -/
def isAvailable (accounts addresses : ObsStore) (input : AddrInput) : Bool :=
  let address := resolveAddr input
  (alookup accounts address).isNone && (alookup addresses address).isNone

/-- `isPassValid(password)` of `index.ts` (`MAX_PASS_LEN = 32` is taken
from the spec, section 4.6, as `defaults` is not under `src/`). -/
def isPassValid (password : String) : Bool :=
  password.length > 0 && password.length ≤ 32

/-- Which observable store `getAddress` reads (`type` defaults to
`'address'` at the call sites that omit it). -/
inductive AddrType where
  | account
  | address
  deriving DecidableEq, Repr

/-- The handle returned by `getAddress`: `getMeta` is the source's
unguarded dereference `subject.getValue()[address].json.meta`, so `none`
models the failing lookup on a missing entry; `publicKey` is `none` when
`decodeAddress` would fail. -/
structure KeyringAddress where
  address : String
  isValid : Bool
  publicKey : Option Nat
  getMeta : Option Meta
  deriving DecidableEq, Repr

/-- `getAddress(_address, type)` of `index.ts`. -/
def getAddress (accounts addresses : ObsStore) (input : AddrInput)
    (type : AddrType) : KeyringAddress :=
  let address := resolveAddr input
  let subject := match type with
    | .account => accounts
    | .address => addresses
  { address := address
    isValid := (alookup subject address).isSome
    publicKey := decodeAddress address
    getMeta := (alookup subject address).map (fun sa => sa.json.meta) }

/-- `getAccounts()` of `index.ts`: map every key of the account store to
its handle, then drop handles whose `meta.isTesting` is truthy (every key
mapped is present, so the `getMeta` dereference succeeds here). -/
def getAccounts (accounts addresses : ObsStore) : List KeyringAddress :=
  (accounts.map (fun e => getAddress accounts addresses (.str e.1) .account)).filter
    (fun a => !truthy (a.getMeta.bind (fun m => alookup m "isTesting")))

/-- `getAddresses()` of `index.ts`. -/
def getAddresses (accounts addresses : ObsStore) : List KeyringAddress :=
  addresses.map (fun e => getAddress accounts addresses (.str e.1) .address)

/-- Modelled from the spec: the external pair capability of
`@polkadot/keyring` (spec section 4.2) — address/public key, the shared
free-form metadata object, key material encrypted under `encPass`, and a
lock flag. `decodePkcs8` validates a password against the currently stored
encrypted material and unlocks on success; `lock` discards decrypted
material. -/
structure Pair where
  address : String
  meta : Meta
  encPass : String
  locked : Bool
  deriving DecidableEq, Repr

/-- The error taxonomy relevant to the facade operations modelled here
(spec section 7). -/
inductive KeyringError where
  | wrongPassword
  deriving DecidableEq, Repr

/-- `pair.isLocked()`. -/
def Pair.isLocked (p : Pair) : Bool := p.locked

/-- `pair.lock()`: discards the decrypted key material. -/
def Pair.lock (p : Pair) : Pair := { p with locked := true }

/-- Modelled from the spec: `pair.decodePkcs8(password)` fails with
`WrongPassword` unless `password` matches the password under which the
currently stored encrypted material was produced; on success the pair is
unlocked. -/
def Pair.decodePkcs8 (p : Pair) (password : String) : Except KeyringError Pair :=
  if password = p.encPass then .ok { p with locked := false }
  else .error .wrongPassword

/-- Modelled from the spec: `pair.toJson(password)` serializes the pair to
its export form, the key material re-encrypted under `password`; in the
source library the returned json's `meta` is the pair's own meta object
(a shared reference), which `saveAccount` relies on. -/
def Pair.toJson (p : Pair) (password : String) : KeyringJson :=
  { address := p.address
    encoded := some ("pkcs8 under " ++ password)
    meta := p.meta }

/-- `backupAccount(pair, password)` of `index.ts`: lock when not already
locked, decode (validating the password), then export. The returned pair
is the in-memory pair after the call. -/
def backupAccount (pair : Pair) (password : String) :
    Except KeyringError (KeyringJson × Pair) :=
  let pair := if !pair.isLocked then pair.lock else pair
  match pair.decodePkcs8 password with
  | .error e => .error e
  | .ok unlocked => .ok (unlocked.toJson password, unlocked)

/-- `getPairs()` of `index.ts`: all registry pairs, except that pairs whose
`meta.isTesting` is strictly `true` are dropped when development mode is
off. -/
def getPairs (isDevelopment : Bool) (pairs : List Pair) : List Pair :=
  pairs.filter
    (fun pair => isDevelopment || !(alookup pair.meta "isTesting" == some (.b true)))

/-- `saveAccount(pair, password?)` of `index.ts`: serialize the pair, stamp
`meta.whenCreated` when it is not already truthy (through the json/pair
shared meta object), register the export in the Pair Registry
(`keyring.addFromJson`) and upsert into the Account Store. Returns the
updated account store, registry and pair. -/
def saveAccount (accounts : ObsStore) (registry : List (String × KeyringJson))
    (pair : Pair) (password : String) (now : Nat) :
    ObsStore × List (String × KeyringJson) × Pair :=
  let json := pair.toJson password
  let meta :=
    if truthy (alookup json.meta "whenCreated") then json.meta
    else aset json.meta "whenCreated" (.n now)
  let json := { json with meta := meta }
  (ObsStore.add accounts json.address json,
   aset registry json.address json,
   { pair with meta := meta })

/-- `saveAddressMeta(address, meta)` of `index.ts`: take the existing
entry's json (or synthesize a fresh one stamped `whenCreated = now`),
merge the supplied metadata key by key, delete `isRecent`, upsert. -/
def saveAddressMeta (addresses : ObsStore) (address : String) (meta : Meta)
    (now : Nat) : ObsStore :=
  let json : KeyringJson :=
    match alookup addresses address with
    | some sa => sa.json
    | none => { address := address, encoded := none, meta := [("whenCreated", .n now)] }
  let merged := meta.foldl (fun m kv => aset m kv.1 kv.2) json.meta
  ObsStore.add addresses address { json with meta := adel merged "isRecent" }

/-- `saveRecent(address)` of `index.ts`: when no entry exists, upsert a
fresh one flagged `isRecent = true, whenCreated = now`; always return the
store's current entry for the address. -/
def saveRecent (addresses : ObsStore) (address : String) (now : Nat) :
    ObsStore × Option SingleAddress :=
  let addresses :=
    if (alookup addresses address).isSome then addresses
    else
      ObsStore.add addresses address
        { address := address
          encoded := none
          meta := [("isRecent", .b true), ("whenCreated", .n now)] }
  (addresses, alookup addresses address)

namespace Ctor

/-!
Model of the `Keyring` constructor of `index.ts` together with the
module-level `singletonInstance` variable and the static `Keyring.counter`.
Object identities are allocation numbers: each evaluation of
`new Keyring()` allocates a fresh object (`this`) before the body runs.
Under JavaScript `new` semantics a constructor that returns `undefined`
(the bare `return;` of the else branch) yields the freshly allocated
`this`, while returning an object yields that object.
-/

/-- What one evaluation of `new Keyring()` produces: the object the `new`
expression evaluates to, and whether the `assert(this.id <= 1)` fired. -/
structure CtorResult where
  ret : Nat
  assertFailed : Bool
  deriving DecidableEq, Repr, Inhabited

/-- The module-level state the constructor reads and writes. -/
structure CtorState where
  singletonInstance : Option Nat
  counter : Nat
  nextObj : Nat
  deriving DecidableEq, Repr

/-- One evaluation of `new Keyring()`. First construction: register the
fresh object as the singleton, run `loadAll` (no effect on this state),
set `id = ++counter`, assert `id <= 1`, and end with
`return singletonInstance` (the object just registered). Later
constructions take the else branch, whose bare `return;` yields the fresh
`this`. -/
def constructKeyring (s : CtorState) : CtorState × CtorResult :=
  let oid := s.nextObj
  match s.singletonInstance with
  | none =>
      let counter := s.counter + 1
      ({ singletonInstance := some oid, counter := counter, nextObj := oid + 1 },
       { ret := oid, assertFailed := decide (1 < counter) })
  | some _ =>
      ({ s with nextObj := oid + 1 }, { ret := oid, assertFailed := false })

/-- Module load: `singletonInstance = null`, `Keyring.counter = 0`. -/
def initialCtorState : CtorState :=
  { singletonInstance := none, counter := 0, nextObj := 0 }

/-- A sequence of `n` constructor evaluations from a given state. -/
def runConstructions : Nat → CtorState → CtorState × List CtorResult
  | 0, s => (s, [])
  | n + 1, s =>
      let step := constructKeyring s
      let rest := runConstructions n step.1
      (rest.1, step.2 :: rest.2)

/-- `n` evaluations of `new Keyring()` from module load. -/
def constructions (n : Nat) : CtorState × List CtorResult :=
  runConstructions n initialCtorState

end Ctor

namespace Load

/-!
Model of `loadAll()` of `index.ts` as far as the persistent store is
concerned: the `store.each` enumeration visits a snapshot of the initial
entries in order, registering account/address records and migrating
legacy (non-hex) keys. The `defaults` module (key builders and prefix
regexes) is not under `src/` and is modelled from the spec.
-/

/-- A stored address segment: either the canonical `0x…` hex form of the
public key or the legacy display-encoded form. -/
inductive AddrStr where
  | hex (pk : Nat)
  | ss58 (pk : Nat)
  deriving DecidableEq, Repr

/-- The public key behind either form. -/
def AddrStr.pk : AddrStr → Nat
  | .hex p => p
  | .ss58 p => p

/-- The `hexAddr.substr(0, 2) !== '0x'` test, negated: true exactly on the
hex form. -/
def AddrStr.isHexForm : AddrStr → Bool
  | .hex _ => true
  | .ss58 _ => false

/-- `isHex(json.address)`. -/
def isHexAddr (a : AddrStr) : Bool := a.isHexForm

/-- `encodeAddress`: the canonical display encoding of a public key. -/
def encodeAddr (pk : Nat) : AddrStr := .ss58 pk

/-- `decodeAddress` / `hexToU8a`: recover the public key from either
form. -/
def decodeAddr (a : AddrStr) : Nat := a.pk

/-- A persistent-store key: account-prefixed, address-prefixed, or some
other key matched by neither regex. -/
inductive SKey where
  | acc (seg : AddrStr)
  | addr (seg : AddrStr)
  | other (s : String)
  deriving DecidableEq, Repr

/-- `accountRegex.test(key)`. -/
def accountRegexTest : SKey → Bool
  | .acc _ => true
  | _ => false

/-- `addressRegex.test(key)`. -/
def addressRegexTest : SKey → Bool
  | .addr _ => true
  | _ => false

/-- Modelled from the spec: `accountKey(addr)` of the `defaults` module
(not under `src/`) — the canonical account storage key, the `account:`
namespace with the hex form of the public key (spec sections 4.1 and 6). -/
def accountKeyOf (a : AddrStr) : SKey := .acc (.hex a.pk)

/-- Modelled from the spec: `addressKey(addr)` — the canonical address
storage key (spec sections 4.1 and 6). -/
def addressKeyOf (a : AddrStr) : SKey := .addr (.hex a.pk)

/-- A stored record as read during `loadAll`: its embedded address, the
`meta.isTesting` flag and optional encrypted material. -/
structure SJson where
  address : AddrStr
  isTesting : Bool
  encoded : Option String
  deriving DecidableEq, Repr

/-- The state threaded through the `store.each` enumeration: the
persistent store plus the observable stores and the pair registry being
populated. -/
structure LoadState where
  pstore : List (SKey × SJson)
  accounts : List (AddrStr × SJson)
  addresses : List (AddrStr × SJson)
  registry : List (AddrStr × SJson)
  deriving DecidableEq, Repr

/-- One visit of the `store.each` callback of `loadAll()`. Account keys:
register and persist when not testing and carrying export material, then
migrate a non-hex key (`store.remove(key); store.set(accountKey(hexAddr),
json)`). Address keys: normalize the embedded address, add to the address
store, then migrate a non-hex key the same way. Other keys: untouched. -/
def loadStep (st : LoadState) (entry : SKey × SJson) : LoadState :=
  match entry with
  | (.acc seg, json) =>
      let st :=
        if !json.isTesting && (json.encoded.getD "") != "" then
          { st with
              registry := aset st.registry (encodeAddr (decodeAddr json.address)) json
              accounts := aset st.accounts (encodeAddr (decodeAddr json.address)) json }
        else st
      if !seg.isHexForm then
        { st with pstore := aset (adel st.pstore (.acc seg)) (accountKeyOf seg) json }
      else st
  | (.addr seg, json) =>
      let address :=
        encodeAddr (if isHexAddr json.address then json.address.pk else decodeAddr json.address)
      let st := { st with addresses := aset st.addresses address json }
      if !seg.isHexForm then
        { st with pstore := aset (adel st.pstore (.addr seg)) (addressKeyOf seg) json }
      else st
  | (.other _, _) => st

/-- `loadAll()`: `addPairs()` first (a no-op on an empty initial registry,
as at module load), then the `store.each` enumeration over a snapshot of
the initial entries. -/
def loadAll (init : List (SKey × SJson)) : LoadState :=
  init.foldl loadStep
    { pstore := init, accounts := [], addresses := [], registry := [] }

/-- The canonical rewrite target of a store key under the migration. -/
def canonKey : SKey → SKey
  | .acc seg => accountKeyOf seg
  | .addr seg => addressKeyOf seg
  | .other s => .other s

/-- A key the migration rewrites: account- or address-namespaced with a
non-hex embedded segment. -/
def nonCanonical : SKey → Bool
  | .acc seg => !seg.isHexForm
  | .addr seg => !seg.isHexForm
  | .other _ => false

/-- The persistent-store effect of one enumeration step: the migration
rewrite when the key is non-canonical, nothing otherwise. -/
def pstep (p : List (SKey × SJson)) (entry : SKey × SJson) :
    List (SKey × SJson) :=
  if nonCanonical entry.1 then aset (adel p entry.1) (canonKey entry.1) entry.2
  else p

/-- The persistent store after enumerating a list of entries. -/
def pfold (l : List (SKey × SJson)) (p : List (SKey × SJson)) :
    List (SKey × SJson) :=
  l.foldl pstep p

end Load




/-- The options of the store entries whose `flag` metadata truthiness
equals `want`, in store iteration order. -/
def partOptions (st : ObsStore) (flag : String) (want : Bool) :
    List KeyringSectionOption :=
  (st.filter (fun e => truthy (alookup e.2.json.meta flag) == want)).map
    (fun e => e.2.option)

/-- A sample stored entry used by the witnesses. -/
def sampleJson : KeyringJson :=
  { address := "a", encoded := none
    meta := [("isRecent", .b true), ("whenCreated", .n 3)] }

/-- The observable-store entry for `sampleJson`. -/
def sampleEntry : SingleAddress :=
  { json := sampleJson, option := createOptionItem "a" sampleJson }

/-- A sample non-testing account record used by the witnesses. -/
def plainJson : KeyringJson := { address := "a", encoded := none, meta := [] }

/-- The observable-store entry for `plainJson`. -/
def plainEntry : SingleAddress :=
  { json := plainJson, option := createOptionItem "a" plainJson }

/-- A sample unlocked pair used by the witnesses. -/
def samplePair : Pair := { address := "a", meta := [], encPass := "pw", locked := false }

/-- A sample testing account record used by the witnesses. -/
def testingJson : KeyringJson :=
  { address := "b", encoded := none, meta := [("isTesting", .b true)] }

/-- The observable-store entry for `testingJson`. -/
def testingEntry : SingleAddress :=
  { json := testingJson, option := createOptionItem "b" testingJson }

/-- A sample legacy-stored record used by the witnesses. -/
def sampleSJson : Load.SJson :=
  { address := .ss58 7, isTesting := false, encoded := some "x" }


section AssocLemmas

variable {α β : Type} [DecidableEq α]

@[simp]
theorem alookup_nil (key : α) : alookup ([] : List (α × β)) key = none := rfl

@[simp]
theorem alookup_aset_self (m : List (α × β)) (k : α) (v : β) :
    alookup (aset m k v) k = some v := by
  induction m with
  | nil => simp [aset, alookup]
  | cons head rest ih =>
      obtain ⟨k0, w⟩ := head
      by_cases h : k0 = k <;> simp [aset, alookup, h, ih]

theorem alookup_aset_ne (m : List (α × β)) (k key : α) (v : β) (h : k ≠ key) :
    alookup (aset m k v) key = alookup m key := by
  induction m with
  | nil => simp [aset, alookup, h]
  | cons head rest ih =>
      obtain ⟨k0, w⟩ := head
      by_cases h0 : k0 = k
      · subst h0
        simp [aset, alookup, h]
      · simp only [aset, if_neg h0, alookup]
        by_cases h1 : k0 = key <;> simp [h1, ih]

@[simp]
theorem alookup_adel_self (m : List (α × β)) (k : α) :
    alookup (adel m k) k = none := by
  induction m with
  | nil => simp [adel]
  | cons head rest ih =>
      obtain ⟨k0, w⟩ := head
      by_cases h : k0 = k <;> simp [adel, alookup, h, ih]

theorem alookup_adel_ne (m : List (α × β)) (k key : α) (h : k ≠ key) :
    alookup (adel m k) key = alookup m key := by
  induction m with
  | nil => simp [adel]
  | cons head rest ih =>
      obtain ⟨k0, w⟩ := head
      by_cases h0 : k0 = k
      · subst h0
        simp [adel, alookup, h, ih]
      · simp only [adel, if_neg h0, alookup]
        by_cases h1 : k0 = key <;> simp [h1, ih]

theorem alookup_eq_none_of_not_mem_keys (m : List (α × β)) (key : α)
    (h : key ∉ m.map Prod.fst) : alookup m key = none := by
  induction m with
  | nil => rfl
  | cons head rest ih =>
      obtain ⟨k0, w⟩ := head
      simp only [List.map_cons, List.mem_cons] at h
      push_neg at h
      simp [alookup, Ne.symm h.1, ih h.2]

theorem mem_keys_aset (m : List (α × β)) (k key : α) (v : β) :
    key ∈ (aset m k v).map Prod.fst ↔ key ∈ m.map Prod.fst ∨ key = k := by
  induction m with
  | nil => simp [aset]
  | cons head rest ih =>
      obtain ⟨k0, w⟩ := head
      by_cases h : k0 = k
      · subst h
        simp only [aset, if_true, eq_self_iff_true, List.map_cons, List.mem_cons]
        tauto
      · simp only [aset, if_neg h, List.map_cons, List.mem_cons, ih]
        tauto

theorem mem_keys_adel (m : List (α × β)) (k key : α)
    (h : key ∈ (adel m k).map Prod.fst) : key ∈ m.map Prod.fst ∧ key ≠ k := by
  induction m with
  | nil => simp [adel] at h
  | cons head rest ih =>
      obtain ⟨k0, w⟩ := head
      by_cases h0 : k0 = k
      · subst h0
        simp only [adel, if_pos rfl] at h
        have := ih h
        exact ⟨by simp [this.1], this.2⟩
      · simp only [adel, if_neg h0, List.map_cons, List.mem_cons] at h
        rcases h with h | h
        · subst h
          exact ⟨by simp, h0⟩
        · have := ih h
          exact ⟨by simp [this.1], this.2⟩

end AssocLemmas

/-! Helper lemmas about metadata merging. -/

theorem not_mem_keys_of_alookup_eq_none {β : Type} (m : List (String × β)) (k : String)
    (h : alookup m k = none) : k ∉ m.map Prod.fst := by
  induction m with
  | nil => simp
  | cons head rest ih =>
      obtain ⟨k0, v0⟩ := head
      by_cases h0 : k0 = k
      · simp [alookup, h0] at h
      · simp only [alookup, if_neg h0] at h
        simp only [List.map_cons, List.mem_cons]
        push_neg
        exact ⟨Ne.symm h0, ih h⟩

theorem alookup_foldl_aset_of_not_mem {β : Type} (meta : List (String × β))
    (base : List (String × β)) (k : String) (h : k ∉ meta.map Prod.fst) :
    alookup (meta.foldl (fun m kv => aset m kv.1 kv.2) base) k = alookup base k := by
  induction meta generalizing base with
  | nil => rfl
  | cons kv rest ih =>
      simp only [List.map_cons, List.mem_cons] at h
      push_neg at h
      rw [List.foldl_cons, ih _ h.2, alookup_aset_ne _ _ _ _ (Ne.symm h.1)]

theorem alookup_foldl_aset_of_mem {β : Type} (meta : List (String × β))
    (base : List (String × β)) (k : String) (v : β)
    (hnd : (meta.map Prod.fst).Nodup) (h : alookup meta k = some v) :
    alookup (meta.foldl (fun m kv => aset m kv.1 kv.2) base) k = some v := by
  induction meta generalizing base with
  | nil => simp [alookup] at h
  | cons kv rest ih =>
      obtain ⟨k0, v0⟩ := kv
      simp only [List.map_cons, List.nodup_cons] at hnd
      by_cases h0 : k0 = k
      · subst h0
        have h' : v0 = v := by simpa [alookup] using h
        subst h'
        rw [List.foldl_cons,
          alookup_foldl_aset_of_not_mem rest (aset base k0 v0) k0 hnd.1,
          alookup_aset_self]
      · simp only [alookup, if_neg h0] at h
        rw [List.foldl_cons]
        exact ih _ hnd.2 h

/-!
Claim theorems. Each theorem formalizes one claim about the embedded
operations above.
-/

/-- Claim C3: `saveRecent(address)` never overwrites an existing entry —
with an existing entry the store is unchanged and that entry is returned;
with none, a fresh entry flagged `isRecent = true, whenCreated = now` is
created; the returned entry is always the store's current entry; and two
consecutive calls yield the same store and the same entry (hence an
unchanged `whenCreated`). -/
theorem saveRecent_never_overwrites (addresses : ObsStore) (address : String)
    (now now2 : Nat) :
    (∀ e, alookup addresses address = some e →
      saveRecent addresses address now = (addresses, some e)) ∧
    ((saveRecent addresses address now).2 =
      alookup (saveRecent addresses address now).1 address) ∧
    (alookup addresses address = none →
      (saveRecent addresses address now).2.map
          (fun e => alookup e.json.meta "isRecent") = some (some (.b true)) ∧
      (saveRecent addresses address now).2.map
          (fun e => alookup e.json.meta "whenCreated") = some (some (.n now))) ∧
    ((saveRecent (saveRecent addresses address now).1 address now2).1
        = (saveRecent addresses address now).1 ∧
     (saveRecent (saveRecent addresses address now).1 address now2).2
        = (saveRecent addresses address now).2) := by
  refine ⟨?_, ?_, ?_, ?_⟩
  · intro e he
    simp [saveRecent, he]
  · cases h : alookup addresses address <;> simp [saveRecent, h]
  · intro h
    simp [saveRecent, h, ObsStore.add, alookup_aset_self, alookup]
  · cases h : alookup addresses address with
    | some e => simp [saveRecent, h]
    | none =>
        have hsome :
            alookup (saveRecent addresses address now).1 address
              = some { json := { address := address, encoded := none,
                                 meta := [("isRecent", .b true), ("whenCreated", .n now)] },
                       option := createOptionItem address
                         { address := address, encoded := none,
                           meta := [("isRecent", .b true), ("whenCreated", .n now)] } } := by
          simp [saveRecent, h, ObsStore.add, alookup_aset_self]
        refine ⟨?_, ?_⟩ <;>
          simp [saveRecent, h, hsome, ObsStore.add, alookup_aset_self]





/-- Witness for claim C3 at a concrete store: an existing entry is
returned unchanged. -/
theorem saveRecent_never_overwrites_witness :
    saveRecent [("a", sampleEntry)] "a" 9 = ([("a", sampleEntry)], some sampleEntry) :=
  (saveRecent_never_overwrites [("a", sampleEntry)] "a" 9 0).1 sampleEntry (by decide)

/-- Claim C4: `saveAddressMeta(address, meta)` merges field by field into
the existing entry's metadata (or a synthesized fresh one stamped
`whenCreated = now`): supplied keys overwrite, unsupplied keys are
retained, and `isRecent` is always absent from the stored result. -/
theorem saveAddressMeta_merges_and_strips (addresses : ObsStore) (address : String)
    (meta : Meta) (now : Nat) (hnd : (meta.map Prod.fst).Nodup) :
    ((alookup (saveAddressMeta addresses address meta now) address).isSome = true) ∧
    ((storedMeta (saveAddressMeta addresses address meta now) address).map
        (fun m => alookup m "isRecent") = some none) ∧
    (∀ k v, k ≠ "isRecent" → alookup meta k = some v →
      (storedMeta (saveAddressMeta addresses address meta now) address).map
        (fun m => alookup m k) = some (some v)) ∧
    (∀ k, k ≠ "isRecent" → alookup meta k = none →
      (storedMeta (saveAddressMeta addresses address meta now) address).map
        (fun m => alookup m k) =
      some (alookup
        (match alookup addresses address with
         | some sa => sa.json.meta
         | none => [("whenCreated", MetaVal.n now)]) k)) := by
  have hstored :
      storedMeta (saveAddressMeta addresses address meta now) address
        = some (adel
            (meta.foldl (fun m kv => aset m kv.1 kv.2)
              (match alookup addresses address with
               | some sa => sa.json.meta
               | none => [("whenCreated", MetaVal.n now)])) "isRecent") := by
    cases h : alookup addresses address <;>
      simp [saveAddressMeta, storedMeta, ObsStore.add, alookup_aset_self, h]
  refine ⟨?_, ?_, ?_, ?_⟩
  · cases h : alookup addresses address <;>
      simp [saveAddressMeta, ObsStore.add, alookup_aset_self, h]
  · rw [hstored]
    simp [alookup_adel_self]
  · intro k v hk hv
    rw [hstored]
    simp only [Option.map_some', Option.some.injEq]
    rw [alookup_adel_ne _ _ _ (Ne.symm hk)]
    exact alookup_foldl_aset_of_mem meta _ k v hnd hv
  · intro k hk hv
    rw [hstored]
    simp only [Option.map_some', Option.some.injEq]
    rw [alookup_adel_ne _ _ _ (Ne.symm hk)]
    exact alookup_foldl_aset_of_not_mem meta _ k
      (not_mem_keys_of_alookup_eq_none meta k hv)

/-- Witness for claim C4 at a concrete input: on a fresh address, after
merging `{foo: 1, isRecent: true}` the stored entry carries `foo` but has
no `isRecent`. -/
theorem saveAddressMeta_merges_and_strips_witness :
    (storedMeta (saveAddressMeta [] "a" [("foo", .n 1), ("isRecent", .b true)] 4) "a").map
        (fun m => alookup m "isRecent") = some none ∧
    (storedMeta (saveAddressMeta [] "a" [("foo", .n 1), ("isRecent", .b true)] 4) "a").map
        (fun m => alookup m "foo") = some (some (.n 1)) :=
  ⟨(saveAddressMeta_merges_and_strips [] "a" [("foo", .n 1), ("isRecent", .b true)] 4
      (by decide)).2.1,
   (saveAddressMeta_merges_and_strips [] "a" [("foo", .n 1), ("isRecent", .b true)] 4
      (by decide)).2.2.1 "foo" (.n 1) (by decide) (by decide)⟩

/-- Claim C5: `getAccounts()` never returns an entry whose `meta.isTesting`
is `true`, and `getPairs()` returns exactly the registry pairs, except
that pairs with `meta.isTesting = true` are dropped when development mode
is disabled and all pairs are returned when it is enabled. -/
theorem getAccounts_getPairs_filtering (accounts addresses : ObsStore)
    (isDevelopment : Bool) (pairs : List Pair) :
    (∀ a ∈ getAccounts accounts addresses,
      a.getMeta.bind (fun m => alookup m "isTesting") ≠ some (.b true)) ∧
    (getPairs isDevelopment pairs =
      if isDevelopment then pairs
      else pairs.filter
        (fun p => !(alookup p.meta "isTesting" == some (.b true)))) := by
  constructor
  · intro a ha hcontra
    rw [getAccounts, List.mem_filter] at ha
    rw [hcontra] at ha
    simp [truthy] at ha
  · cases isDevelopment with
    | true =>
        simp only [getPairs, Bool.true_or, if_true]
        exact List.filter_true pairs
    | false =>
        simp [getPairs]





/-- Witness for claim C5 at a concrete store: the handle produced for the
one (non-testing) stored account does not carry `isTesting = true`. -/
theorem getAccounts_getPairs_filtering_witness :
    (getAddress [("a", plainEntry)] [] (.str "a") .account).getMeta.bind
      (fun m => alookup m "isTesting") ≠ some (.b true) :=
  (getAccounts_getPairs_filtering [("a", plainEntry)] [] false []).1
    (getAddress [("a", plainEntry)] [] (.str "a") .account) (by decide)

/-- Claim C7: `isAvailable(address)` is true iff the address is in neither
the Account Store nor the Address Store; it is true on empty stores
(before any save referencing the address) and false immediately after
`saveRecent`, `saveAddressMeta` or `saveAccount` referencing it. -/
theorem isAvailable_iff_unreferenced (accounts addresses : ObsStore) (a : String)
    (input : AddrInput) (meta : Meta) (pair : Pair) (password : String)
    (registry : List (String × KeyringJson)) (now : Nat) :
    (isAvailable accounts addresses (.str a) = true ↔
      alookup accounts a = none ∧ alookup addresses a = none) ∧
    (isAvailable [] [] input = true) ∧
    (isAvailable accounts (saveRecent addresses a now).1 (.str a) = false) ∧
    (isAvailable accounts (saveAddressMeta addresses a meta now) (.str a) = false) ∧
    (isAvailable (saveAccount accounts registry pair password now).1 addresses
      (.str pair.address) = false) := by
  have left : ∀ (st1 st2 : ObsStore) (x : String),
      (alookup st1 x).isSome = true → isAvailable st1 st2 (.str x) = false := by
    intro st1 st2 x h
    cases he : alookup st1 x with
    | none => rw [he] at h; simp at h
    | some e => simp [isAvailable, resolveAddr, he]
  have right : ∀ (st1 st2 : ObsStore) (x : String),
      (alookup st2 x).isSome = true → isAvailable st1 st2 (.str x) = false := by
    intro st1 st2 x h
    cases he : alookup st2 x with
    | none => rw [he] at h; simp at h
    | some e => simp [isAvailable, resolveAddr, he]
  refine ⟨?_, ?_, ?_, ?_, ?_⟩
  · simp [isAvailable, resolveAddr, Option.isNone_iff_eq_none]
  · cases input <;> simp [isAvailable, resolveAddr]
  · refine right _ _ _ ?_
    cases h0 : alookup addresses a <;>
      simp [saveRecent, h0, ObsStore.add, alookup_aset_self]
  · refine right _ _ _ ?_
    cases h0 : alookup addresses a <;>
      simp [saveAddressMeta, h0, ObsStore.add, alookup_aset_self]
  · refine left _ _ _ ?_
    simp [saveAccount, Pair.toJson, ObsStore.add, alookup_aset_self]

/-- Claim C8: `backupAccount(pair, password)` locks the pair when needed and
gates the export on `decodePkcs8(password)`: a password that does not
match the currently stored encrypted material fails with `WrongPassword`;
a matching one yields the serialized export and leaves the pair unlocked
in memory. -/
theorem backupAccount_password_gate (pair : Pair) (password : String) :
    (password ≠ pair.encPass →
      backupAccount pair password = .error .wrongPassword) ∧
    (password = pair.encPass →
      backupAccount pair password =
        .ok (Pair.toJson { pair with locked := false } password,
             { pair with locked := false })) := by
  obtain ⟨ad, m, ep, lk⟩ := pair
  constructor
  · intro hne
    cases lk <;>
      simp [backupAccount, Pair.isLocked, Pair.lock, Pair.decodePkcs8, hne]
  · intro heq
    subst heq
    cases lk <;>
      simp [backupAccount, Pair.isLocked, Pair.lock, Pair.decodePkcs8, Pair.toJson]



/-- Witness for claim C8 at a concrete pair: backing up with the matching
password succeeds and the returned pair is unlocked. -/
theorem backupAccount_password_gate_witness :
    backupAccount samplePair "pw" =
      .ok (Pair.toJson { samplePair with locked := false } "pw",
           { samplePair with locked := false }) :=
  (backupAccount_password_gate samplePair "pw").2 rfl

/-- Claim C9: `saveAccount` stamps `whenCreated = now` on the persisted
entry when the pair's metadata has none, and a repeated `saveAccount` of
the same (threaded) pair leaves the stored `whenCreated` unchanged. -/
theorem saveAccount_whenCreated_stable (accounts : ObsStore)
    (registry : List (String × KeyringJson)) (pair : Pair) (password : String)
    (now1 now2 : Nat) (h1 : 0 < now1) :
    (alookup pair.meta "whenCreated" = none →
      (storedMeta (saveAccount accounts registry pair password now1).1
          pair.address).map (fun m => alookup m "whenCreated")
        = some (some (.n now1))) ∧
    ((storedMeta
        (saveAccount (saveAccount accounts registry pair password now1).1
          (saveAccount accounts registry pair password now1).2.1
          (saveAccount accounts registry pair password now1).2.2
          password now2).1 pair.address).map (fun m => alookup m "whenCreated")
      = (storedMeta (saveAccount accounts registry pair password now1).1
          pair.address).map (fun m => alookup m "whenCreated")) := by
  have hmeta1 :
      (saveAccount accounts registry pair password now1).2.2.meta
        = (if truthy (alookup pair.meta "whenCreated") then pair.meta
           else aset pair.meta "whenCreated" (.n now1)) := by
    simp [saveAccount, Pair.toJson]
  have hstored1 :
      storedMeta (saveAccount accounts registry pair password now1).1 pair.address
        = some (if truthy (alookup pair.meta "whenCreated") then pair.meta
                else aset pair.meta "whenCreated" (.n now1)) := by
    simp [saveAccount, Pair.toJson, storedMeta, ObsStore.add, alookup_aset_self]
  have htruthy1 :
      truthy (alookup (saveAccount accounts registry pair password now1).2.2.meta
        "whenCreated") = true := by
    rw [hmeta1]
    cases ht : truthy (alookup pair.meta "whenCreated") with
    | true => simp [ht]
    | false =>
        rw [if_neg (by simp [ht])]
        rw [alookup_aset_self]
        simp [truthy]
        omega
  constructor
  · intro hnone
    rw [hstored1, if_neg (by simp [hnone, truthy])]
    simp [alookup_aset_self]
  · have haddr :
        (saveAccount accounts registry pair password now1).2.2.address
          = pair.address := by
      simp [saveAccount, Pair.toJson]
    have key : ∀ (acc2 : ObsStore) (reg2 : List (String × KeyringJson)) (p1 : Pair),
        truthy (alookup p1.meta "whenCreated") = true →
        storedMeta (saveAccount acc2 reg2 p1 password now2).1 p1.address
          = some p1.meta := by
      intro acc2 reg2 p1 ht
      simp [saveAccount, Pair.toJson, storedMeta, ObsStore.add, alookup_aset_self, ht]
    have hstored2 :=
      key (saveAccount accounts registry pair password now1).1
        (saveAccount accounts registry pair password now1).2.1
        (saveAccount accounts registry pair password now1).2.2 htruthy1
    rw [haddr] at hstored2
    rw [hstored2, hstored1, hmeta1]

/-- Witness for claim C9 at a concrete pair with no `whenCreated`: the
first save stamps `whenCreated = 5`. -/
theorem saveAccount_whenCreated_stable_witness :
    (storedMeta (saveAccount [] [] samplePair "pw" 5).1 samplePair.address).map
      (fun m => alookup m "whenCreated") = some (some (.n 5)) :=
  (saveAccount_whenCreated_stable [] [] samplePair "pw" 5 7 (by decide)).1 rfl



theorem addAccounts_eq (accounts : ObsStore) (opts : KeyringOptions) :
    addAccounts accounts opts =
      { opts with
          account := opts.account ++ partOptions accounts "isTesting" false,
          testing := opts.testing ++ partOptions accounts "isTesting" true } := by
  induction accounts generalizing opts with
  | nil =>
      cases opts
      simp [addAccounts, partOptions]
  | cons e rest ih =>
      cases hop : truthy (alookup e.2.json.meta "isTesting") with
      | true =>
          have step : addAccounts (e :: rest) opts
              = addAccounts rest
                  { opts with testing := opts.testing ++ [e.2.option] } := by
            simp [addAccounts, hop]
          rw [step, ih]
          cases opts
          simp [partOptions, List.filter_cons, hop, List.append_assoc]
      | false =>
          have step : addAccounts (e :: rest) opts
              = addAccounts rest
                  { opts with account := opts.account ++ [e.2.option] } := by
            simp [addAccounts, hop]
          rw [step, ih]
          cases opts
          simp [partOptions, List.filter_cons, hop, List.append_assoc]

theorem addAddresses_eq (addresses : ObsStore) (opts : KeyringOptions) :
    addAddresses addresses opts =
      { opts with
          address := opts.address ++ partOptions addresses "isRecent" false,
          recent := opts.recent ++ partOptions addresses "isRecent" true } := by
  induction addresses generalizing opts with
  | nil =>
      cases opts
      simp [addAddresses, partOptions]
  | cons e rest ih =>
      cases hop : truthy (alookup e.2.json.meta "isRecent") with
      | true =>
          have step : addAddresses (e :: rest) opts
              = addAddresses rest
                  { opts with recent := opts.recent ++ [e.2.option] } := by
            simp [addAddresses, hop]
          rw [step, ih]
          cases opts
          simp [partOptions, List.filter_cons, hop, List.append_assoc]
      | false =>
          have step : addAddresses (e :: rest) opts
              = addAddresses rest
                  { opts with address := opts.address ++ [e.2.option] } := by
            simp [addAddresses, hop]
          rw [step, ih]
          cases opts
          simp [partOptions, List.filter_cons, hop, List.append_assoc]

theorem section_guard (l1 l2 : List KeyringSectionOption)
    (h1 h2 : KeyringSectionOption) :
    ((if l1.length != 0 then [h1] else []) ++ l1 ++
        (if l2.length != 0 then [h2] else [])) ++ l2 =
      (if l1 = [] then [] else h1 :: l1) ++ (if l2 = [] then [] else h2 :: l2) := by
  cases l1 <;> cases l2 <;> simp

theorem computeOptions_account_eq (accounts addresses : ObsStore) :
    (computeOptions accounts addresses).account =
      (if partOptions accounts "isTesting" false = [] then []
       else createOptionHeader "Accounts" :: partOptions accounts "isTesting" false) ++
      (if partOptions accounts "isTesting" true = [] then []
       else createOptionHeader "Development" :: partOptions accounts "isTesting" true) := by
  rw [computeOptions]
  simp only [addAccounts_eq, addAddresses_eq, emptyOptions, List.nil_append]
  exact section_guard _ _ _ _

theorem computeOptions_address_eq (accounts addresses : ObsStore) :
    (computeOptions accounts addresses).address =
      (if partOptions addresses "isRecent" false = [] then []
       else createOptionHeader "Addresses" :: partOptions addresses "isRecent" false) ++
      (if partOptions addresses "isRecent" true = [] then []
       else createOptionHeader "Recent" :: partOptions addresses "isRecent" true) := by
  rw [computeOptions]
  simp only [addAccounts_eq, addAddresses_eq, emptyOptions, List.nil_append]
  exact section_guard _ _ _ _

theorem computeOptions_all_eq (accounts addresses : ObsStore) :
    (computeOptions accounts addresses).all =
      (computeOptions accounts addresses).account ++
        (computeOptions accounts addresses).address := rfl

/-- Claim C6: the recomputed options snapshot consists of a header
"Accounts" followed by the non-testing account options (in store order)
when any exist, then a header "Development" followed by the testing
options when any exist; the address side follows the same pattern with
"Addresses" and "Recent"; `all` is the finished account sequence followed
by the finished address sequence; in particular, with a non-testing entry
A and a testing entry B stored in that order, `all` is
`[header "Accounts", A, header "Development", B]` followed by the address
side. -/
theorem initOptions_aggregation (accounts addresses : ObsStore) :
    ((computeOptions accounts addresses).account =
      (if partOptions accounts "isTesting" false = [] then []
       else createOptionHeader "Accounts" :: partOptions accounts "isTesting" false) ++
      (if partOptions accounts "isTesting" true = [] then []
       else createOptionHeader "Development" :: partOptions accounts "isTesting" true)) ∧
    ((computeOptions accounts addresses).address =
      (if partOptions addresses "isRecent" false = [] then []
       else createOptionHeader "Addresses" :: partOptions addresses "isRecent" false) ++
      (if partOptions addresses "isRecent" true = [] then []
       else createOptionHeader "Recent" :: partOptions addresses "isRecent" true)) ∧
    ((computeOptions accounts addresses).all =
      (computeOptions accounts addresses).account ++
        (computeOptions accounts addresses).address) ∧
    (∀ (a1 a2 : String) (eA eB : SingleAddress),
      truthy (alookup eA.json.meta "isTesting") = false →
      truthy (alookup eB.json.meta "isTesting") = true →
      (computeOptions [(a1, eA), (a2, eB)] addresses).all =
        [createOptionHeader "Accounts", eA.option,
         createOptionHeader "Development", eB.option] ++
        (computeOptions [(a1, eA), (a2, eB)] addresses).address) := by
  refine ⟨computeOptions_account_eq accounts addresses,
    computeOptions_address_eq accounts addresses,
    computeOptions_all_eq accounts addresses, ?_⟩
  intro a1 a2 eA eB hA hB
  have hparts : partOptions [(a1, eA), (a2, eB)] "isTesting" false = [eA.option] ∧
      partOptions [(a1, eA), (a2, eB)] "isTesting" true = [eB.option] := by
    constructor <;> simp [partOptions, List.filter_cons, hA, hB]
  rw [computeOptions_all_eq, computeOptions_account_eq, hparts.1, hparts.2]
  simp





/-- Witness for claim C6 at a concrete store: with a non-testing entry and
a testing entry in that order (and no addresses), `all` is exactly
header-Accounts, the entry, header-Development, the testing entry. -/
theorem initOptions_aggregation_witness :
    (computeOptions [("a", plainEntry), ("b", testingEntry)] []).all =
      [createOptionHeader "Accounts", plainEntry.option,
       createOptionHeader "Development", testingEntry.option] ++
      (computeOptions [("a", plainEntry), ("b", testingEntry)] []).address :=
  (initOptions_aggregation [("a", plainEntry), ("b", testingEntry)] []).2.2.2
    "a" "b" plainEntry testingEntry (by decide) (by decide)

/-- Claim C10: the handle returned by `getAddress` dereferences the store
entry without a guard: for an address present in the selected store,
`getMeta` is well defined and returns that entry's metadata; for an
absent address the handle reports `isValid = false` and `getMeta` hits
the missing entry (the lookup's error branch). -/
theorem getAddress_unguarded_meta (accounts addresses : ObsStore) (a : String)
    (type : AddrType) :
    (∀ e, alookup (match type with
        | .account => accounts
        | .address => addresses) a = some e →
      (getAddress accounts addresses (.str a) type).isValid = true ∧
      (getAddress accounts addresses (.str a) type).getMeta = some e.json.meta) ∧
    (alookup (match type with
        | .account => accounts
        | .address => addresses) a = none →
      (getAddress accounts addresses (.str a) type).isValid = false ∧
      (getAddress accounts addresses (.str a) type).getMeta = none) := by
  constructor
  · intro e he
    cases type <;> simp_all [getAddress, resolveAddr]
  · intro he
    cases type <;> simp_all [getAddress, resolveAddr]

/-- Witness for claim C10 at a concrete input: on empty stores the handle
is invalid and its `getMeta` dereference has no entry to read. -/
theorem getAddress_unguarded_meta_witness :
    (getAddress [] [] (.str "zzz") .address).isValid = false ∧
    (getAddress [] [] (.str "zzz") .address).getMeta = none :=
  (getAddress_unguarded_meta [] [] "zzz" .address).2 rfl

/-! Lemmas about the constructor model. -/

theorem Ctor.runConstructions_registered (n a c m : Nat) :
    Ctor.runConstructions n
        { singletonInstance := some a, counter := c, nextObj := m } =
      ({ singletonInstance := some a, counter := c, nextObj := m + n },
       (List.range n).map
         (fun i => { ret := m + i, assertFailed := false })) := by
  induction n generalizing m with
  | zero => simp [Ctor.runConstructions]
  | succ k ih =>
      rw [Ctor.runConstructions]
      simp only [Ctor.constructKeyring]
      rw [ih (m + 1)]
      refine Prod.ext ?_ ?_
      · simp [Ctor.CtorState.mk.injEq]
        omega
      · rw [List.range_succ_eq_map]
        simp only [List.map_cons, List.map_map, Function.comp]
        refine congrArg₂ _ (by simp) ?_
        refine List.map_congr_left ?_
        intro i _
        simp [Ctor.CtorResult.mk.injEq]
        omega

/-- Claim C1 (amended): the first `new Keyring()` registers itself as the
module singleton, increments the counter to 1 and passes the `id <= 1`
assertion; every later construction takes the else branch, whose bare
`return` yields the freshly allocated object under JavaScript `new`
semantics — so each construction returns a distinct fresh instance (the
returned identities are `0, 1, 2, …`), the second is not the first, and
no construction (third included) is a fatal assertion violation, while
the singleton variable keeps pointing at the first instance. -/
theorem Ctor.constructor_fresh_instances (n : Nat) :
    ((Ctor.constructions n).2.map Ctor.CtorResult.ret = List.range n) ∧
    ((Ctor.constructions n).2.map Ctor.CtorResult.assertFailed
        = List.replicate n false) ∧
    ((Ctor.constructions n).1.singletonInstance
        = if n = 0 then none else some 0) := by
  cases n with
  | zero => exact ⟨rfl, rfl, rfl⟩
  | succ k =>
      have hstep : Ctor.constructions (k + 1)
          = (({ singletonInstance := some 0, counter := 1, nextObj := 1 + k } :
                Ctor.CtorState),
             ({ ret := 0, assertFailed := false } : Ctor.CtorResult) ::
               (List.range k).map
                 (fun i => { ret := 1 + i, assertFailed := false })) := by
        rw [Ctor.constructions, Ctor.runConstructions]
        simp [Ctor.constructKeyring, Ctor.initialCtorState,
          Ctor.runConstructions_registered k 0 1 1]
      rw [hstep]
      refine ⟨?_, ?_, by simp⟩
      · simp only [List.map_cons, List.map_map, Function.comp]
        rw [List.range_succ_eq_map]
        refine congrArg₂ _ rfl ?_
        refine List.map_congr_left ?_
        intro i _
        simp
        omega
      · rw [List.replicate_succ]
        simp only [List.map_cons, List.map_map]
        refine congrArg₂ _ rfl ?_
        rw [show (Ctor.CtorResult.assertFailed ∘ fun i =>
              ({ ret := 1 + i, assertFailed := false } : Ctor.CtorResult))
            = fun _ => false from rfl]
        rw [List.map_const', List.length_range]

/-- Counterexample for claim C1 as stated: after two constructions from
module load, the object returned by the second `new Keyring()` is not the
object returned by the first. -/
theorem Ctor.secondConstruction_differs :
    ((Ctor.constructions 2).2.getD 0 default).ret
      ≠ ((Ctor.constructions 2).2.getD 1 default).ret := by decide

/-! Lemmas about the `loadAll` migration. -/

namespace Load



theorem loadStep_pstore (st : LoadState) (entry : SKey × SJson) :
    (loadStep st entry).pstore = pstep st.pstore entry := by
  obtain ⟨key, json⟩ := entry
  cases key with
  | acc seg =>
      cases seg <;>
        simp [loadStep, pstep, nonCanonical, AddrStr.isHexForm, accountKeyOf,
          canonKey, apply_ite LoadState.pstore]
  | addr seg =>
      cases seg <;>
        simp [loadStep, pstep, nonCanonical, AddrStr.isHexForm, addressKeyOf,
          canonKey]
  | other s => simp [loadStep, pstep, nonCanonical]

theorem foldl_loadStep_pstore (l : List (SKey × SJson)) (st : LoadState) :
    (l.foldl loadStep st).pstore = pfold l st.pstore := by
  induction l generalizing st with
  | nil => rfl
  | cons e rest ih =>
      rw [List.foldl_cons, ih, loadStep_pstore]
      rfl

theorem nonCanonical_canonKey (k : SKey) : nonCanonical (canonKey k) = false := by
  cases k <;> simp [canonKey, accountKeyOf, addressKeyOf, nonCanonical,
    AddrStr.isHexForm]

theorem canonical_ne_of_nonCanonical {a b : SKey} (ha : nonCanonical a = false)
    (hb : nonCanonical b = true) : a ≠ b := by
  intro h
  rw [h, hb] at ha
  simp at ha

theorem pfold_lookup_canonical (l : List (SKey × SJson))
    (p : List (SKey × SJson)) (ck : SKey) (hck : nonCanonical ck = false)
    (h : ∀ e ∈ l, nonCanonical e.1 = true → canonKey e.1 ≠ ck) :
    alookup (pfold l p) ck = alookup p ck := by
  induction l generalizing p with
  | nil => rfl
  | cons e rest ih =>
      have hrest : ∀ e' ∈ rest, nonCanonical e'.1 = true → canonKey e'.1 ≠ ck :=
        fun e' he' => h e' (List.mem_cons_of_mem _ he')
      rw [pfold, List.foldl_cons]
      rw [show List.foldl pstep (pstep p e) rest = pfold rest (pstep p e) from rfl]
      rw [ih _ hrest]
      by_cases hnc : nonCanonical e.1 = true
      · rw [pstep, if_pos hnc,
          alookup_aset_ne _ _ _ _ (h e (List.mem_cons_self _ _) hnc),
          alookup_adel_ne _ _ _
            (canonical_ne_of_nonCanonical hck hnc).symm]
      · rw [pstep, if_neg (by simp [hnc])]

theorem pfold_lookup_stays_none (l : List (SKey × SJson))
    (p : List (SKey × SJson)) (k : SKey) (hk : nonCanonical k = true)
    (h : alookup p k = none) : alookup (pfold l p) k = none := by
  induction l generalizing p with
  | nil => exact h
  | cons e rest ih =>
      rw [pfold, List.foldl_cons]
      refine ih (pstep p e) ?_
      by_cases hnc : nonCanonical e.1 = true
      · rw [pstep, if_pos hnc,
          alookup_aset_ne _ _ _ _
            (canonical_ne_of_nonCanonical (nonCanonical_canonKey e.1) hk)]
        by_cases he : e.1 = k
        · rw [he, alookup_adel_self]
        · rw [alookup_adel_ne _ _ _ he]
          exact h
      · rw [pstep, if_neg (by simp [hnc])]
        exact h

theorem pfold_clears (l : List (SKey × SJson)) (p : List (SKey × SJson))
    (h : ∀ k, k ∈ p.map Prod.fst → nonCanonical k = true → k ∈ l.map Prod.fst) :
    ∀ k, k ∈ (pfold l p).map Prod.fst → nonCanonical k = false := by
  induction l generalizing p with
  | nil =>
      intro k hk
      cases hnc : nonCanonical k with
      | false => rfl
      | true => exact absurd (h k hk hnc) (List.not_mem_nil k)
  | cons e rest ih =>
      intro k hk
      rw [pfold, List.foldl_cons] at hk
      refine ih (pstep p e) ?_ k hk
      intro k' hk' hnc'
      by_cases hnc : nonCanonical e.1 = true
      · rw [pstep, if_pos hnc] at hk'
        rcases (mem_keys_aset _ _ _ _).1 hk' with h1 | h1
        · obtain ⟨hm, hne⟩ := mem_keys_adel _ _ _ h1
          have hmem := h k' hm hnc'
          rw [List.map_cons] at hmem
          rcases List.mem_cons.1 hmem with h2 | h2
          · exact absurd h2 hne
          · exact h2
        · exact absurd hnc'
            (by rw [h1, nonCanonical_canonKey]; exact Bool.false_ne_true)
      · rw [pstep, if_neg (by simp [hnc])] at hk'
        have hmem := h k' hk' hnc'
        rw [List.map_cons] at hmem
        rcases List.mem_cons.1 hmem with h2 | h2
        · rw [h2] at hnc'
          exact absurd hnc' (by simp [hnc])
        · exact h2

end Load

/-- The canonical rewrite is injective on the legacy (non-canonical)
keys. -/
theorem Load.canonKey_inj_nonCanonical :
    ∀ {a b : Load.SKey}, Load.nonCanonical a = true →
      Load.nonCanonical b = true → Load.canonKey a = Load.canonKey b → a = b
  | .acc (.hex _), _, ha, _, _ => by
      simp [Load.nonCanonical, Load.AddrStr.isHexForm] at ha
  | .addr (.hex _), _, ha, _, _ => by
      simp [Load.nonCanonical, Load.AddrStr.isHexForm] at ha
  | .other _, _, ha, _, _ => by simp [Load.nonCanonical] at ha
  | _, .acc (.hex _), _, hb, _ => by
      simp [Load.nonCanonical, Load.AddrStr.isHexForm] at hb
  | _, .addr (.hex _), _, hb, _ => by
      simp [Load.nonCanonical, Load.AddrStr.isHexForm] at hb
  | _, .other _, _, hb, _ => by simp [Load.nonCanonical] at hb
  | .acc (.ss58 _), .acc (.ss58 _), _, _, h => by
      simp [Load.canonKey, Load.accountKeyOf, Load.AddrStr.pk] at h
      simp [h]
  | .acc (.ss58 _), .addr (.ss58 _), _, _, h => by
      simp [Load.canonKey, Load.accountKeyOf, Load.addressKeyOf] at h
  | .addr (.ss58 _), .acc (.ss58 _), _, _, h => by
      simp [Load.canonKey, Load.accountKeyOf, Load.addressKeyOf] at h
  | .addr (.ss58 _), .addr (.ss58 _), _, _, h => by
      simp [Load.canonKey, Load.addressKeyOf, Load.AddrStr.pk] at h
      simp [h]

/-- Claim C2: during `loadAll()` over a store whose keys are distinct,
every stored account- or address-prefixed key whose embedded address
segment is not canonical is deleted and its record rewritten under the
canonical key; after `loadAll()` completes the record is retrievable
under the canonical key, the old key is gone, and no non-canonical key
remains in the persistent store. -/
theorem Load.loadAll_migrates_legacy_keys (pre post : List (Load.SKey × Load.SJson))
    (k : Load.SKey) (j : Load.SJson) (hk : Load.nonCanonical k = true)
    (hnd : ((pre ++ (k, j) :: post).map Prod.fst).Nodup) :
    (alookup (Load.loadAll (pre ++ (k, j) :: post)).pstore (Load.canonKey k)
        = some j) ∧
    (alookup (Load.loadAll (pre ++ (k, j) :: post)).pstore k = none) ∧
    (∀ k', k' ∈ (Load.loadAll (pre ++ (k, j) :: post)).pstore.map Prod.fst →
      Load.nonCanonical k' = false) := by
  have hknotin : k ∉ post.map Prod.fst := by
    rw [List.map_append, List.map_cons] at hnd
    exact (List.nodup_cons.1 (List.nodup_append.1 hnd).2.1).1
  have hpost : ∀ e ∈ post, Load.nonCanonical e.1 = true →
      Load.canonKey e.1 ≠ Load.canonKey k := by
    intro e he hnc hceq
    have hek : e.1 = k := Load.canonKey_inj_nonCanonical hnc hk hceq
    exact hknotin (hek ▸ List.mem_map_of_mem Prod.fst he)
  have hfold : (Load.loadAll (pre ++ (k, j) :: post)).pstore
      = Load.pfold post
          (Load.pstep (Load.pfold pre (pre ++ (k, j) :: post)) (k, j)) := by
    rw [Load.loadAll, Load.foldl_loadStep_pstore, Load.pfold,
      List.foldl_append, List.foldl_cons]
    rfl
  have hckk : Load.canonKey k ≠ k :=
    Load.canonical_ne_of_nonCanonical (Load.nonCanonical_canonKey k) hk
  refine ⟨?_, ?_, ?_⟩
  · rw [hfold,
      Load.pfold_lookup_canonical post _ (Load.canonKey k)
        (Load.nonCanonical_canonKey k) hpost,
      Load.pstep, if_pos hk, alookup_aset_self]
  · rw [hfold]
    refine Load.pfold_lookup_stays_none post _ k hk ?_
    rw [Load.pstep, if_pos hk, alookup_aset_ne _ _ _ _ hckk, alookup_adel_self]
  · rw [Load.loadAll, Load.foldl_loadStep_pstore]
    exact Load.pfold_clears _ _ (fun k0 hm _ => hm)



/-- Witness for claim C2 at a concrete one-entry store holding a legacy
(non-hex) account key: the record ends up under the canonical key and the
legacy key is gone. -/
theorem loadAll_migrates_legacy_keys_witness :
    (alookup (Load.loadAll [(.acc (.ss58 7), sampleSJson)]).pstore
        (Load.canonKey (.acc (.ss58 7))) = some sampleSJson) ∧
    (alookup (Load.loadAll [(.acc (.ss58 7), sampleSJson)]).pstore
        (.acc (.ss58 7)) = none) :=
  ⟨(Load.loadAll_migrates_legacy_keys [] [] (.acc (.ss58 7)) sampleSJson
      (by decide) (by simp)).1,
   (Load.loadAll_migrates_legacy_keys [] [] (.acc (.ss58 7)) sampleSJson
      (by decide) (by simp)).2.1⟩

end UIKeyring
